import Mathlib

/-!
Verification of the chunking subsystem of a RAG ingestion backend.

The development shallowly embeds `backend/Ingestion/chunker.py`
(`_normalize`, `_make_chunk_id`, `Chunker.chunk`) together with the data
model of `backend/models/schemas.py` (`TextBlock`, `ImageAsset`,
`DocumentContent`, `ChunkMetadata`).  The LangChain splitters are external
collaborators of the chunker; they enter the embedding as abstract
splitting functions passed to `Chunker.chunk`, exactly at the interface
the Python code uses (`split_text : str -> list[str]`).
-/

/-! ## Python text primitives

`_normalize` in the source is
`re.sub(r"\s+", " ", text.replace(" ", " ")).strip()`.
Python's `\s` (unicode) and `str.strip()` both use the set of unicode
whitespace characters modelled by `pyIsSpace`. -/

/-- The characters Python treats as whitespace (`str.isspace`, `re` `\s`). -/
def pyIsSpace (c : Char) : Bool :=
  let n := c.toNat
  (9 ≤ n && n ≤ 13) || n == 32 || (28 ≤ n && n ≤ 31) || n == 133 ||
    n == 160 || n == 5760 || (8192 ≤ n && n ≤ 8202) || n == 8232 ||
    n == 8233 || n == 8239 || n == 8287 || n == 12288

/-- Collapse each maximal run of whitespace characters to a single space
(the Boolean argument records whether the previous character was whitespace,
i.e. whether we are inside a run). -/
def collapseWS : Bool → List Char → List Char
  | _, [] => []
  | inRun, c :: rest =>
    if pyIsSpace c then
      if inRun then collapseWS true rest else ' ' :: collapseWS true rest
    else c :: collapseWS false rest

/-- Python `str.strip()` on a list of characters. -/
def pyStripChars (l : List Char) : List Char :=
  ((l.dropWhile pyIsSpace).reverse.dropWhile pyIsSpace).reverse

/-- `chunker._normalize`: replace non-breaking spaces by plain spaces,
collapse whitespace runs to a single space, strip both ends. -/
def _normalize (s : String) : String :=
  String.mk (pyStripChars (collapseWS false
    (s.data.map (fun c => if c = Char.ofNat 160 then ' ' else c))))

/-! ## SHA-256 (`hashlib.sha256(...).hexdigest()`)

Executable implementation of FIPS 180-4 SHA-256 over byte lists, plus
UTF-8 encoding, used by `_make_chunk_id`. -/

/-- Truncate to 32 bits. -/
def w32 (n : Nat) : Nat := n % 4294967296

/-- Rotate a 32-bit word right by `k`. -/
def rotr32 (k x : Nat) : Nat := w32 ((x >>> k) ||| (x <<< (32 - k)))

/-- Bitwise complement of a 32-bit word. -/
def not32 (x : Nat) : Nat := x ^^^ 4294967295

/-- SHA-256 `Ch`. -/
def shaCh (x y z : Nat) : Nat := (x &&& y) ^^^ (not32 x &&& z)

/-- SHA-256 `Maj`. -/
def shaMaj (x y z : Nat) : Nat := (x &&& y) ^^^ (x &&& z) ^^^ (y &&& z)

/-- SHA-256 `Σ₀`. -/
def bigSigma0 (x : Nat) : Nat := rotr32 2 x ^^^ rotr32 13 x ^^^ rotr32 22 x

/-- SHA-256 `Σ₁`. -/
def bigSigma1 (x : Nat) : Nat := rotr32 6 x ^^^ rotr32 11 x ^^^ rotr32 25 x

/-- SHA-256 `σ₀`. -/
def smallSigma0 (x : Nat) : Nat := rotr32 7 x ^^^ rotr32 18 x ^^^ (x >>> 3)

/-- SHA-256 `σ₁`. -/
def smallSigma1 (x : Nat) : Nat := rotr32 17 x ^^^ rotr32 19 x ^^^ (x >>> 10)

/-- The 64 SHA-256 round constants. -/
def shaK : List Nat :=
  [1116352408, 1899447441, 3049323471, 3921009573,
   961987163, 1508970993, 2453635748, 2870763221,
   3624381080, 310598401, 607225278, 1426881987,
   1925078388, 2162078206, 2614888103, 3248222580,
   3835390401, 4022224774, 264347078, 604807628,
   770255983, 1249150122, 1555081692, 1996064986,
   2554220882, 2821834349, 2952996808, 3210313671,
   3336571891, 3584528711, 113926993, 338241895,
   666307205, 773529912, 1294757372, 1396182291,
   1695183700, 1986661051, 2177026350, 2456956037,
   2730485921, 2820302411, 3259730800, 3345764771,
   3516065817, 3600352804, 4094571909, 275423344,
   430227734, 506948616, 659060556, 883997877,
   958139571, 1322822218, 1537002063, 1747873779,
   1955562222, 2024104815, 2227730452, 2361852424,
   2428436474, 2756734187, 3204031479, 3329325298]

/-- The SHA-256 initial hash value. -/
def shaH0 : List Nat :=
  [1779033703, 3144134277, 1013904242, 2773480762,
   1359893119, 2600822924, 528734635, 1541459225]

/-- Big-endian 8-byte encoding of a (64-bit) natural number. -/
def bytesBE8 (n : Nat) : List Nat :=
  [(n >>> 56) &&& 255, (n >>> 48) &&& 255, (n >>> 40) &&& 255,
   (n >>> 32) &&& 255, (n >>> 24) &&& 255, (n >>> 16) &&& 255,
   (n >>> 8) &&& 255, n &&& 255]

/-- SHA-256 message padding: append `0x80`, zero bytes up to 56 mod 64,
then the bit length as an 8-byte big-endian integer. -/
def shaPad (msg : List Nat) : List Nat :=
  let len := msg.length
  let zeros := (119 - len % 64) % 64
  msg ++ 128 :: List.replicate zeros 0 ++ bytesBE8 (8 * len)

/-- Combine bytes into big-endian 32-bit words. -/
def bytesToWords : List Nat → List Nat
  | a :: b :: c :: d :: rest =>
      (a * 16777216 + b * 65536 + c * 256 + d) :: bytesToWords rest
  | _ => []

/-- Split a word list into blocks of 16 words. -/
def words16 : List Nat → List (List Nat)
  | w0 :: w1 :: w2 :: w3 :: w4 :: w5 :: w6 :: w7 ::
    w8 :: w9 :: w10 :: w11 :: w12 :: w13 :: w14 :: w15 :: rest =>
      [w0, w1, w2, w3, w4, w5, w6, w7,
       w8, w9, w10, w11, w12, w13, w14, w15] :: words16 rest
  | _ => []

/-- Extend a 16-word block to the 64-word message schedule
(the fuel counts the remaining words to append). -/
def shaExtend : Nat → List Nat → List Nat
  | 0, acc => acc
  | fuel + 1, acc =>
      let n := acc.length
      let w := w32 (smallSigma1 (acc.getD (n - 2) 0) + acc.getD (n - 7) 0 +
        smallSigma0 (acc.getD (n - 15) 0) + acc.getD (n - 16) 0)
      shaExtend fuel (acc ++ [w])

/-- One SHA-256 round: update the working variables with one `(k, w)` pair. -/
def shaRound (st : Nat × Nat × Nat × Nat × Nat × Nat × Nat × Nat)
    (kw : Nat × Nat) : Nat × Nat × Nat × Nat × Nat × Nat × Nat × Nat :=
  match st, kw with
  | (a, b, c, d, e, f, g, h), (k, w) =>
    let t1 := w32 (h + bigSigma1 e + shaCh e f g + k + w)
    let t2 := w32 (bigSigma0 a + shaMaj a b c)
    (w32 (t1 + t2), a, b, c, w32 (d + t1), e, f, g)

/-- SHA-256 compression of one 16-word block into the running hash. -/
def shaCompress (h : List Nat) (block : List Nat) : List Nat :=
  let ws := shaExtend 48 block
  let st := (shaK.zip ws).foldl shaRound
    (h.getD 0 0, h.getD 1 0, h.getD 2 0, h.getD 3 0,
     h.getD 4 0, h.getD 5 0, h.getD 6 0, h.getD 7 0)
  match st with
  | (a, b, c, d, e, f, g, hh) =>
    [w32 (h.getD 0 0 + a), w32 (h.getD 1 0 + b), w32 (h.getD 2 0 + c),
     w32 (h.getD 3 0 + d), w32 (h.getD 4 0 + e), w32 (h.getD 5 0 + f),
     w32 (h.getD 6 0 + g), w32 (h.getD 7 0 + hh)]

/-- SHA-256 digest of a byte list, as a byte list. -/
def sha256Bytes (msg : List Nat) : List Nat :=
  let digest := (words16 (bytesToWords (shaPad msg))).foldl shaCompress shaH0
  (digest.map (fun w =>
    [(w >>> 24) &&& 255, (w >>> 16) &&& 255, (w >>> 8) &&& 255, w &&& 255])).flatten

/-- Lower-case hexadecimal digit. -/
def hexDigit (n : Nat) : Char :=
  if n < 10 then Char.ofNat (48 + n) else Char.ofNat (87 + n)

/-- Lower-case hexadecimal rendering of a byte list. -/
def bytesToHex (bs : List Nat) : String :=
  String.mk ((bs.map (fun b => [hexDigit (b / 16), hexDigit (b % 16)])).flatten)

/-- `hashlib.sha256(msg).hexdigest()`. -/
def sha256Hex (msg : List Nat) : String := bytesToHex (sha256Bytes msg)

/-- UTF-8 encoding of one character. -/
def utf8Char (c : Char) : List Nat :=
  let n := c.toNat
  if n < 128 then [n]
  else if n < 2048 then [192 + n / 64, 128 + n % 64]
  else if n < 65536 then [224 + n / 4096, 128 + (n / 64) % 64, 128 + n % 64]
  else [240 + n / 262144, 128 + (n / 4096) % 64, 128 + (n / 64) % 64,
        128 + n % 64]

/-- `str.encode("utf-8")`. -/
def utf8Encode (s : String) : List Nat := (s.data.map utf8Char).flatten

/-- `chunker._make_chunk_id`:
`sha256(f"{session_id}|{document_id}|{page}|{chunk_index}".encode()).hexdigest()`.
Session and document ids enter as their string (`str(uuid)`) form. -/
def _make_chunk_id (session_id document_id : String) (page : Int)
    (chunk_index : Nat) : String :=
  sha256Hex (utf8Encode
    (session_id ++ "|" ++ document_id ++ "|" ++ toString page ++ "|" ++
      toString chunk_index))

/-! ## Data model (`backend/models/schemas.py`)

`TextBlock.section` is called `sectionLabel` here because `section` is a
Lean keyword.  UUID-valued fields are embedded as their string
(`str(uuid)`) form, which is the only form the chunker uses. -/

/-- `schemas.TextBlock`: one block of extracted text on one page. -/
structure TextBlock where
  text : String
  page : Int
  sectionLabel : Option String
deriving DecidableEq

/-- `schemas.ImageAsset`: one extracted image with its metadata. -/
structure ImageAsset where
  image_url : String
  session_id : String
  document_id : String
  page : Int
  image_path : String
  format : String
deriving DecidableEq

/-- `schemas.DocumentContent` as the chunker accesses it: the chunker reads
both fields defensively (`getattr(..., None) or []`), so each field may be
absent/None, modelled by `Option`. -/
structure DocumentContent where
  text_blocks : Option (List TextBlock)
  images : Option (List ImageAsset)
deriving DecidableEq

/-- One entry of a chunk's `image_refs` list: the five-key metadata dict
built by `Chunker.chunk` (and asserted by the repository's own tests). -/
structure ImageRef where
  image_id : String
  session_id : String
  document_id : String
  page : Int
  image_path : String
deriving DecidableEq

/-- `schemas.ChunkMetadata` carrying the field values `Chunker.chunk`
passes to its constructor.  Note a schema/constructor mismatch in the
source: `schemas.py` declares `image_refs: List[str]`, while the chunker
passes the five-key metadata dicts modelled by `ImageRef`; this structure
records the chunker-side value, and the pydantic validation of that field
is modelled separately by `imageRefsPassValidation`. -/
structure ChunkMetadata where
  chunk_id : String
  session_id : String
  document_id : String
  page : Int
  chunk_index : Nat
  text : String
  image_refs : List ImageRef
  embedding_model : String
deriving DecidableEq

/-- Errors of `Chunker.chunk`; the source raises
`ValueError("strategy must be 'semantic' or 'recursive'")`. -/
inductive ChunkError where
  | invalidConfiguration : String → ChunkError
deriving DecidableEq

instance {ε α : Type} [DecidableEq ε] [DecidableEq α] :
    DecidableEq (Except ε α) := fun x y =>
  match x, y with
  | .ok a, .ok b =>
    if h : a = b then .isTrue (by rw [h])
    else .isFalse (fun he => by cases he; exact h rfl)
  | .error a, .error b =>
    if h : a = b then .isTrue (by rw [h])
    else .isFalse (fun he => by cases he; exact h rfl)
  | .ok _, .error _ => .isFalse (fun he => by cases he)
  | .error _, .ok _ => .isFalse (fun he => by cases he)

/-! ## The chunker (`backend/Ingestion/chunker.py`, `Chunker.chunk`)

The LangChain splitters are external collaborators.  `Chunker.chunk` is
therefore parameterised by
  - `recFam cs co : String → List String` — the splitting function of
    `RecursiveCharacterTextSplitter(chunk_size=cs, chunk_overlap=co, ...)`,
  - `semFam em : String → List String` — the raw document texts produced
    by `SemanticChunker` over `HuggingFaceEmbeddings(model_name=em)`
    (`[d.page_content for d in sem.create_documents([text])]`);
    the source wraps this raw output with normalise-and-drop-empties. -/

/-- The full-metadata dict built for one image (`Chunker.chunk` lines
73–84).  `schemas.ImageAsset` has no `image_id` field, so
`getattr(image, "image_id", None) or getattr(image, "image_url", "")`
always yields `image_url`. -/
def imageRecord (im : ImageAsset) : ImageRef :=
  { image_id := im.image_url
    session_id := im.session_id
    document_id := im.document_id
    page := im.page
    image_path := im.image_path }

/-- The records of `images_by_page[p]`: images with positive page equal to
`p`, in input order (dict-grouping by page preserves input order). -/
def imagesFor (images : List ImageAsset) (p : Int) : List ImageRef :=
  (images.filter (fun im => 0 < im.page && im.page == p)).map imageRecord

/-- The blocks of `blocks_by_page[p]`: text blocks with positive page equal
to `p`, in input order. -/
def blocksFor (blocks : List TextBlock) (p : Int) : List TextBlock :=
  blocks.filter (fun b => 0 < b.page && b.page == p)

/-- The ascending list of pages that have at least one (placed) text block:
`sorted(blocks_by_page.keys())`. -/
def pageKeys (blocks : List TextBlock) : List Int :=
  (((blocks.map (fun b => b.page)).filter (fun p => 0 < p)).dedup).insertionSort
    (fun a b => a ≤ b)

/-- The `parts` list built for one page (`Chunker.chunk` lines 138–152):
skip blocks whose normalized text is empty; emit a `"## section"` marker
whenever a block carries a (truthy) section label whose normalization is
non-empty and differs from the last emitted one. -/
def buildParts : Option String → List TextBlock → List String
  | _, [] => []
  | last, b :: rest =>
    if _normalize b.text = "" then buildParts last rest
    else
      match b.sectionLabel with
      | none => _normalize b.text :: buildParts last rest
      | some s =>
        if s = "" then _normalize b.text :: buildParts last rest
        else
          if _normalize s ≠ "" ∧ some (_normalize s) ≠ last then
            ("## " ++ _normalize s) :: _normalize b.text ::
              buildParts (some (_normalize s)) rest
          else _normalize b.text :: buildParts last rest

/-- `page_text = "\n\n".join(parts).strip()`. -/
def pageText (blocks : List TextBlock) : String :=
  String.mk (pyStripChars (String.intercalate "\n\n" (buildParts none blocks)).data)

/-- The `split_text` closure selected by `strategy` (`Chunker.chunk` lines
94–128): `recursive` uses the recursive splitter directly; `semantic`
normalizes each produced document and drops empty ones; any other strategy
is rejected. -/
def splitTextFor (recFam : Nat → Nat → String → List String)
    (semFam : String → String → List String) (strategy : String)
    (chunk_size chunk_overlap : Nat) (embedding_model : String) :
    Option (String → List String) :=
  if strategy = "recursive" then some (recFam chunk_size chunk_overlap)
  else if strategy = "semantic" then
    some (fun t =>
      ((semFam embedding_model t).map _normalize).filter (fun s => s ≠ ""))
  else none

/-- The per-page emission loop (`Chunker.chunk` lines 162–180):
`for chunk_index, piece in enumerate(pieces)`, re-normalize the piece,
skip it if empty (the enumerate index advances regardless), otherwise
append a `ChunkMetadata` record.  The first argument is the current
enumerate index. -/
def emitChunks (session_id document_id : String) (p : Int)
    (imgs : List ImageRef) (embedding_model : String) :
    Nat → List String → List ChunkMetadata
  | _, [] => []
  | i, piece :: rest =>
    if _normalize piece = "" then
      emitChunks session_id document_id p imgs embedding_model (i + 1) rest
    else
      { chunk_id := _make_chunk_id session_id document_id p i
        session_id := session_id
        document_id := document_id
        page := p
        chunk_index := i
        text := _normalize piece
        image_refs := imgs
        embedding_model := embedding_model } ::
        emitChunks session_id document_id p imgs embedding_model (i + 1) rest

/-- Process one page (`Chunker.chunk` lines 132–180): assemble the page
text, skip the page if it is empty, otherwise split and emit chunks with
that page's image records. -/
def chunkPage (split : String → List String) (session_id document_id : String)
    (embedding_model : String) (blocks : List TextBlock)
    (images : List ImageAsset) (p : Int) : List ChunkMetadata :=
  if pageText (blocksFor blocks p) = "" then []
  else emitChunks session_id document_id p (imagesFor images p)
    embedding_model 0 (split (pageText (blocksFor blocks p)))

/-- Process the given pages in order, concatenating their chunk lists. -/
def chunkPages (split : String → List String)
    (session_id document_id embedding_model : String)
    (blocks : List TextBlock) (images : List ImageAsset) :
    List Int → List ChunkMetadata
  | [] => []
  | p :: ps =>
    chunkPage split session_id document_id embedding_model blocks images p ++
      chunkPages split session_id document_id embedding_model blocks images ps

/-- `Chunker.chunk`.  Defensive input access (`getattr(..., None) or []`),
strategy dispatch (an unknown strategy raises before any chunk is built),
then the page loop over `sorted(blocks_by_page.keys())`. -/
def Chunker.chunk (recFam : Nat → Nat → String → List String)
    (semFam : String → String → List String)
    (document_content : DocumentContent) (session_id document_id : String)
    (strategy embedding_model : String) (chunk_size chunk_overlap : Nat) :
    Except ChunkError (List ChunkMetadata) :=
  match splitTextFor recFam semFam strategy chunk_size chunk_overlap
      embedding_model with
  | none => .error (.invalidConfiguration
      "strategy must be semantic or recursive")
  | some split => .ok (chunkPages split session_id document_id
      embedding_model (document_content.text_blocks.getD [])
      (document_content.images.getD [])
      (pageKeys (document_content.text_blocks.getD [])))

/-- Default `strategy` of `Chunker.chunk` (source line 52). -/
def defaultStrategy : String := "semantic"

/-- Default `embedding_model` of `Chunker.chunk` (source line 53). -/
def defaultEmbeddingModel : String := "BAAI/bge-m3"

/-- Default `chunk_size` of `Chunker.chunk` (source line 54). -/
def defaultChunkSize : Nat := 1400

/-- Default `chunk_overlap` of `Chunker.chunk` (source line 55). -/
def defaultChunkOverlap : Nat := 150

/-- A call of `Chunker.chunk` that lets every optional argument take its
default value. -/
def Chunker.chunkDefault (recFam : Nat → Nat → String → List String)
    (semFam : String → String → List String)
    (document_content : DocumentContent) (session_id document_id : String) :
    Except ChunkError (List ChunkMetadata) :=
  Chunker.chunk recFam semFam document_content session_id document_id
    defaultStrategy defaultEmbeddingModel defaultChunkSize defaultChunkOverlap

/-! ## Derived notions used by the statements -/

/-- The enumerate indices of the pieces whose normalization is non-empty,
starting the enumeration at `i`: the `chunk_index` values the emission
loop produces for a piece list. -/
def keptIndicesFrom : Nat → List String → List Nat
  | _, [] => []
  | i, piece :: rest =>
    if _normalize piece = "" then keptIndicesFrom (i + 1) rest
    else i :: keptIndicesFrom (i + 1) rest

/-- The pieces the splitter is asked to produce for page `p` (none when the
assembled page text is empty, since the source skips the page before
splitting). -/
def pagePieces (split : String → List String) (blocks : List TextBlock)
    (p : Int) : List String :=
  if pageText (blocksFor blocks p) = "" then []
  else split (pageText (blocksFor blocks p))

/-- Output order of the chunk list: page strictly ascending, and
`chunk_index` strictly ascending within one page. -/
def chunkOutOrder (a b : ChunkMetadata) : Prop :=
  a.page < b.page ∨ (a.page = b.page ∧ a.chunk_index < b.chunk_index)

instance : DecidableRel chunkOutOrder := fun a b => by
  unfold chunkOutOrder; infer_instance

/-! ## Concrete sample inputs for witnesses and counterexamples -/

/-- Splitter family returning the whole text as a single piece. -/
def recIdent : Nat → Nat → String → List String := fun _ _ t => [t]

/-- Semantic collaborator returning the whole text as a single document. -/
def semIdent : String → String → List String := fun _ t => [t]

/-- Splitter family whose first emitted piece normalizes to empty. -/
def recBlank : Nat → Nat → String → List String := fun _ _ _ => [" ", "ab"]

/-- Splitter family with a recognizable constant output. -/
def recTag : Nat → Nat → String → List String := fun _ _ _ => ["rec"]

/-- Semantic collaborator with a recognizable constant output. -/
def semTag : String → String → List String := fun _ _ => ["sem"]

/-- A document with one text block on page 1. -/
def docOnePage : DocumentContent :=
  ⟨some [⟨"Hello world", 1, none⟩], some []⟩

/-- A document with blocks on pages 2 and 1 (given out of page order) and
one image on each page. -/
def docTwoPages : DocumentContent :=
  ⟨some [⟨"Beta", 2, none⟩, ⟨"Alpha", 1, some "Intro"⟩],
   some [⟨"img2", "sess", "doc", 2, "/i/2.png", "png"⟩,
         ⟨"img1", "sess", "doc", 1, "/i/1.png", "png"⟩]⟩

/-- A document with one whitespace-only text block on page 1 and absent
images. -/
def docBlank : DocumentContent :=
  ⟨some [⟨" ", 1, none⟩], none⟩

/-- A document with one text block on page 1 and absent images. -/
def docNoImages : DocumentContent :=
  ⟨some [⟨"Hello world", 1, none⟩], none⟩

/-- Placeholder chunk record (used only as a `headD` default). -/
def dummyChunk : ChunkMetadata :=
  ⟨"", "", "", 0, 0, "", [], ""⟩

/-- The chunk list of a small concrete recursive run. -/
def sampleChunkRun : List ChunkMetadata :=
  (Chunker.chunk recIdent semIdent docOnePage "s" "d" "recursive" "m"
    10 2).toOption.getD []

/-- Its first chunk. -/
def sampleChunk : ChunkMetadata := sampleChunkRun.headD dummyChunk

/-- The chunk list of a two-page concrete recursive run with images. -/
def sampleChunkRun2 : List ChunkMetadata :=
  (Chunker.chunk recIdent semIdent docTwoPages "sess" "doc" "recursive" "m"
    10 2).toOption.getD []

/-- Its first chunk. -/
def sampleChunk2 : ChunkMetadata := sampleChunkRun2.headD dummyChunk

/-- The chunk list of a concrete recursive run on a document with absent
images. -/
def sampleChunkRun3 : List ChunkMetadata :=
  (Chunker.chunk recIdent semIdent docNoImages "s" "d" "recursive" "m"
    10 2).toOption.getD []

/-- Its first chunk. -/
def sampleChunk3 : ChunkMetadata := sampleChunkRun3.headD dummyChunk

/-- Pydantic validation of the `image_refs` argument of the chunker against the
declared field type `image_refs: List[str]` of `schemas.ChunkMetadata`
(schemas.py line 84): pydantic accepts a list there only if every item is
a string and rejects a dict item (in both pydantic v1 and v2, with no
custom validator or config in `schemas.py`).  Every item the chunker
passes is a five-key metadata dict (`ImageRef`), never a string, so the
argument validates exactly when the list is empty. -/
def imageRefsPassValidation (refs : List ImageRef) : Bool :=
  refs.isEmpty

/-! ## Structural lemmas -/

/-- Shape of every chunk produced by the emission loop: its scalar fields,
its id formula, and the origin of its text. -/
theorem mem_emitChunks {sid did : String} {p : Int} {imgs : List ImageRef}
    {em : String} {pieces : List String} :
    ∀ {i : Nat} {c : ChunkMetadata}, c ∈ emitChunks sid did p imgs em i pieces →
      c.session_id = sid ∧ c.document_id = did ∧ c.page = p ∧
      c.image_refs = imgs ∧ c.embedding_model = em ∧
      c.chunk_id = _make_chunk_id sid did p c.chunk_index ∧
      c.text ≠ "" ∧ ∃ piece ∈ pieces, c.text = _normalize piece := by
  induction pieces with
  | nil => intro i c h; simp [emitChunks] at h
  | cons piece rest ih =>
    intro i c h
    rw [emitChunks] at h
    by_cases he : _normalize piece = ""
    · rw [if_pos he] at h
      obtain ⟨h1, h2, h3, h4, h5, h6, h7, pc, hpc, hpc2⟩ := ih h
      exact ⟨h1, h2, h3, h4, h5, h6, h7, pc, List.mem_cons_of_mem _ hpc, hpc2⟩
    · rw [if_neg he] at h
      rcases List.mem_cons.mp h with hc | hc
      · subst hc
        exact ⟨rfl, rfl, rfl, rfl, rfl, rfl, he, piece,
          List.mem_cons_self piece rest, rfl⟩
      · obtain ⟨h1, h2, h3, h4, h5, h6, h7, pc, hpc, hpc2⟩ := ih hc
        exact ⟨h1, h2, h3, h4, h5, h6, h7, pc, List.mem_cons_of_mem _ hpc, hpc2⟩

/-- The `chunk_index` values produced by the emission loop are exactly the
enumerate positions of the pieces whose normalization is non-empty. -/
theorem emitChunks_map_index {sid did : String} {p : Int}
    {imgs : List ImageRef} {em : String} {pieces : List String} :
    ∀ i, (emitChunks sid did p imgs em i pieces).map (fun c => c.chunk_index) =
      keptIndicesFrom i pieces := by
  induction pieces with
  | nil => intro i; rfl
  | cons piece rest ih =>
    intro i
    rw [emitChunks, keptIndicesFrom]
    by_cases he : _normalize piece = ""
    · rw [if_pos he, if_pos he]; exact ih (i + 1)
    · rw [if_neg he, if_neg he, List.map_cons, ih (i + 1)]

/-- Kept enumerate indices are at least the starting index. -/
theorem keptIndicesFrom_ge {pieces : List String} :
    ∀ {i j}, j ∈ keptIndicesFrom i pieces → i ≤ j := by
  induction pieces with
  | nil => intro i j h; simp [keptIndicesFrom] at h
  | cons piece rest ih =>
    intro i j h
    rw [keptIndicesFrom] at h
    by_cases he : _normalize piece = ""
    · rw [if_pos he] at h
      exact Nat.le_of_succ_le (ih h)
    · rw [if_neg he] at h
      rcases List.mem_cons.mp h with hc | hc
      · exact hc ▸ Nat.le_refl j
      · exact Nat.le_of_succ_le (ih hc)

/-- Kept enumerate indices are strictly increasing. -/
theorem keptIndicesFrom_pairwise {pieces : List String} :
    ∀ i, List.Pairwise (· < ·) (keptIndicesFrom i pieces) := by
  induction pieces with
  | nil => intro i; exact List.Pairwise.nil
  | cons piece rest ih =>
    intro i
    rw [keptIndicesFrom]
    by_cases he : _normalize piece = ""
    · rw [if_pos he]; exact ih (i + 1)
    · rw [if_neg he]
      exact List.Pairwise.cons (fun j hj => keptIndicesFrom_ge hj) (ih (i + 1))

/-- When every piece normalizes non-empty, the kept indices are the whole
consecutive range. -/
theorem keptIndicesFrom_of_nonempty {pieces : List String}
    (h : ∀ s ∈ pieces, _normalize s ≠ "") :
    ∀ i, keptIndicesFrom i pieces = List.range' i pieces.length := by
  induction pieces with
  | nil => intro i; rfl
  | cons piece rest ih =>
    intro i
    rw [keptIndicesFrom, if_neg (h piece (List.mem_cons_self piece rest)),
      List.length_cons, List.range'_succ,
      ih (fun s hs => h s (List.mem_cons_of_mem _ hs)) (i + 1)]

/-- `chunkPage` is the emission loop over that page's pieces. -/
theorem chunkPage_eq (split : String → List String)
    (sid did em : String) (blocks : List TextBlock)
    (images : List ImageAsset) (p : Int) :
    chunkPage split sid did em blocks images p =
      emitChunks sid did p (imagesFor images p) em 0
        (pagePieces split blocks p) := by
  rw [chunkPage, pagePieces]
  by_cases h : pageText (blocksFor blocks p) = ""
  · rw [if_pos h, if_pos h]; rfl
  · rw [if_neg h, if_neg h]

/-- Membership in the page loop's output. -/
theorem mem_chunkPages {split : String → List String} {sid did em : String}
    {blocks : List TextBlock} {images : List ImageAsset} :
    ∀ {ps : List Int} {c : ChunkMetadata},
      c ∈ chunkPages split sid did em blocks images ps ↔
        ∃ p ∈ ps, c ∈ chunkPage split sid did em blocks images p := by
  intro ps
  induction ps with
  | nil => intro c; simp [chunkPages]
  | cons p rest ih =>
    intro c
    rw [chunkPages, List.mem_append]
    constructor
    · rintro (hc | hc)
      · exact ⟨p, List.mem_cons_self p rest, hc⟩
      · obtain ⟨q, hq, hcq⟩ := ih.mp hc
        exact ⟨q, List.mem_cons_of_mem _ hq, hcq⟩
    · rintro ⟨q, hq, hcq⟩
      rcases List.mem_cons.mp hq with hq | hq
      · exact Or.inl (hq ▸ hcq)
      · exact Or.inr (ih.mpr ⟨q, hq, hcq⟩)

/-- A page whose blocks all normalize to empty text contributes no parts. -/
theorem buildParts_of_empty {blocks : List TextBlock}
    (h : ∀ b ∈ blocks, _normalize b.text = "") :
    ∀ last, buildParts last blocks = [] := by
  induction blocks with
  | nil => intro last; rfl
  | cons b rest ih =>
    intro last
    rw [buildParts, if_pos (h b (List.mem_cons_self b rest))]
    exact ih (fun x hx => h x (List.mem_cons_of_mem _ hx)) last

/-- A page whose blocks all normalize to empty text has empty page text. -/
theorem pageText_of_empty {blocks : List TextBlock}
    (h : ∀ b ∈ blocks, _normalize b.text = "") : pageText blocks = "" := by
  rw [pageText, buildParts_of_empty h none]
  rfl

/-- `pageKeys` is weakly sorted. -/
theorem pageKeys_sorted_le (blocks : List TextBlock) :
    List.Sorted (· ≤ ·) (pageKeys blocks) :=
  List.sorted_insertionSort _ _

/-- `pageKeys` has no duplicate page. -/
theorem pageKeys_nodup (blocks : List TextBlock) : (pageKeys blocks).Nodup :=
  (List.perm_insertionSort _ _).nodup_iff.mpr (List.nodup_dedup _)

/-- `pageKeys` is strictly sorted. -/
theorem pageKeys_sorted (blocks : List TextBlock) :
    List.Sorted (· < ·) (pageKeys blocks) :=
  (pageKeys_sorted_le blocks).lt_of_le (pageKeys_nodup blocks)

/-- A page is a key iff it owns at least one placed text block. -/
theorem mem_pageKeys {blocks : List TextBlock} {p : Int} :
    p ∈ pageKeys blocks ↔ blocksFor blocks p ≠ [] := by
  rw [pageKeys, (List.perm_insertionSort _ _).mem_iff, List.mem_dedup,
    List.mem_filter]
  constructor
  · rintro ⟨hmem, hpos⟩
    obtain ⟨b, hb, hbp⟩ := List.mem_map.mp hmem
    intro hnil
    have hbmem : b ∈ blocksFor blocks p := by
      rw [blocksFor, List.mem_filter]
      refine ⟨hb, ?_⟩
      simp only [decide_eq_true_eq] at hpos
      simp [hbp, hpos]
    rw [hnil] at hbmem
    exact absurd hbmem (List.not_mem_nil b)
  · intro hne
    obtain ⟨b, hb⟩ := List.exists_mem_of_ne_nil _ hne
    rw [blocksFor, List.mem_filter] at hb
    obtain ⟨hbmem, hcond⟩ := hb
    simp only [Bool.and_eq_true, decide_eq_true_eq, beq_iff_eq] at hcond
    refine ⟨List.mem_map.mpr ⟨b, hbmem, hcond.2⟩, ?_⟩
    simp [← hcond.2, hcond.1]

/-- Page keys are positive. -/
theorem pageKeys_pos {blocks : List TextBlock} {p : Int}
    (h : p ∈ pageKeys blocks) : 0 < p := by
  rw [pageKeys, (List.perm_insertionSort _ _).mem_iff, List.mem_dedup,
    List.mem_filter] at h
  simpa using h.2

/-- Filtering a constant-page chunk list by page keeps all or nothing. -/
theorem filter_page_of_const {l : List ChunkMetadata} {q : Int}
    (h : ∀ c ∈ l, c.page = q) (p : Int) :
    l.filter (fun c => c.page == p) = if p = q then l else [] := by
  by_cases hpq : p = q
  · rw [if_pos hpq]
    apply List.filter_eq_self.mpr
    intro c hc
    simp [h c hc, hpq]
  · rw [if_neg hpq]
    apply List.filter_eq_nil_iff.mpr
    intro c hc
    simp only [beq_iff_eq, h c hc]
    exact fun he => hpq he.symm

/-- Every chunk emitted for page `p` carries `page = p`. -/
theorem page_of_mem_chunkPage {split : String → List String}
    {sid did em : String} {blocks : List TextBlock}
    {images : List ImageAsset} {p : Int} {c : ChunkMetadata}
    (h : c ∈ chunkPage split sid did em blocks images p) : c.page = p := by
  rw [chunkPage_eq] at h
  exact (mem_emitChunks h).2.2.1

/-- Filtering the page loop's output by a page selects that page's chunks. -/
theorem chunkPages_filter_page {split : String → List String}
    {sid did em : String} {blocks : List TextBlock}
    {images : List ImageAsset} :
    ∀ {ps : List Int}, ps.Nodup → ∀ p : Int,
      (chunkPages split sid did em blocks images ps).filter
        (fun c => c.page == p) =
      if p ∈ ps then chunkPage split sid did em blocks images p else [] := by
  intro ps
  induction ps with
  | nil => intro _ p; simp [chunkPages]
  | cons q rest ih =>
    intro hnd p
    rw [chunkPages, List.filter_append,
      filter_page_of_const (fun c hc => page_of_mem_chunkPage hc) p,
      ih (List.nodup_cons.mp hnd).2 p]
    by_cases hpq : p = q
    · subst hpq
      rw [if_pos rfl, if_pos (List.mem_cons_self p rest),
        if_neg (List.nodup_cons.mp hnd).1, List.append_nil]
    · rw [if_neg hpq, List.nil_append]
      by_cases hpr : p ∈ rest
      · rw [if_pos hpr, if_pos (List.mem_cons_of_mem _ hpr)]
      · rw [if_neg hpr, if_neg (fun hm => by
          rcases List.mem_cons.mp hm with hm | hm
          · exact hpq hm
          · exact hpr hm)]

/-- The `(chunk_id, text)` stream of the emission loop does not depend on
the attached image list or the stored embedding-model name. -/
theorem emitChunks_proj {sid did : String} {p : Int}
    {imgs1 imgs2 : List ImageRef} {em1 em2 : String} {pieces : List String} :
    ∀ i, (emitChunks sid did p imgs1 em1 i pieces).map
        (fun c => (c.chunk_id, c.text)) =
      (emitChunks sid did p imgs2 em2 i pieces).map
        (fun c => (c.chunk_id, c.text)) := by
  induction pieces with
  | nil => intro i; rfl
  | cons piece rest ih =>
    intro i
    rw [emitChunks, emitChunks]
    by_cases he : _normalize piece = ""
    · rw [if_pos he, if_pos he]; exact ih (i + 1)
    · rw [if_neg he, if_neg he, List.map_cons, List.map_cons, ih (i + 1)]

/-- The `(chunk_id, text)` stream of the page loop does not depend on the
image list or the stored embedding-model name. -/
theorem chunkPages_proj {split : String → List String} {sid did : String}
    {em1 em2 : String} {blocks : List TextBlock}
    {images1 images2 : List ImageAsset} :
    ∀ ps, (chunkPages split sid did em1 blocks images1 ps).map
        (fun c => (c.chunk_id, c.text)) =
      (chunkPages split sid did em2 blocks images2 ps).map
        (fun c => (c.chunk_id, c.text)) := by
  intro ps
  induction ps with
  | nil => rfl
  | cons p rest ih =>
    rw [chunkPages, chunkPages, List.map_append, List.map_append, ih,
      chunkPage_eq, chunkPage_eq, emitChunks_proj]

/-- Unfolding `Chunker.chunk` on a validly-dispatched strategy. -/
theorem chunk_eq_of_split {recFam : Nat → Nat → String → List String}
    {semFam : String → String → List String} {dc : DocumentContent}
    {sid did strat em : String} {cs co : Nat}
    {split : String → List String}
    (hs : splitTextFor recFam semFam strat cs co em = some split) :
    Chunker.chunk recFam semFam dc sid did strat em cs co =
      .ok (chunkPages split sid did em (dc.text_blocks.getD [])
        (dc.images.getD []) (pageKeys (dc.text_blocks.getD []))) := by
  rw [Chunker.chunk, hs]

/-- A successful `Chunker.chunk` call comes from a dispatched splitter. -/
theorem chunk_ok_split {recFam : Nat → Nat → String → List String}
    {semFam : String → String → List String} {dc : DocumentContent}
    {sid did strat em : String} {cs co : Nat} {out : List ChunkMetadata}
    (hout : Chunker.chunk recFam semFam dc sid did strat em cs co = .ok out) :
    ∃ split, splitTextFor recFam semFam strat cs co em = some split ∧
      out = chunkPages split sid did em (dc.text_blocks.getD [])
        (dc.images.getD []) (pageKeys (dc.text_blocks.getD [])) := by
  cases hsp : splitTextFor recFam semFam strat cs co em with
  | none =>
    rw [Chunker.chunk, hsp] at hout
    exact Except.noConfusion hout
  | some split =>
    rw [chunk_eq_of_split hsp] at hout
    injection hout with h
    exact ⟨split, rfl, h.symm⟩

/-- `chunkPage` depends on the text blocks only through that page's blocks. -/
theorem chunkPage_congr {split : String → List String} {sid did em : String}
    {images : List ImageAsset} {p : Int} {b1 b2 : List TextBlock}
    (h : blocksFor b1 p = blocksFor b2 p) :
    chunkPage split sid did em b1 images p =
      chunkPage split sid did em b2 images p := by
  rw [chunkPage, chunkPage, h]

/-- The page loop depends on the text blocks only through the per-page
block lists. -/
theorem chunkPages_congr {split : String → List String} {sid did em : String}
    {images : List ImageAsset} {b1 b2 : List TextBlock}
    (h : ∀ p, blocksFor b1 p = blocksFor b2 p) :
    ∀ ps, chunkPages split sid did em b1 images ps =
      chunkPages split sid did em b2 images ps := by
  intro ps
  induction ps with
  | nil => rfl
  | cons p rest ih => rw [chunkPages, chunkPages, chunkPage_congr (h p), ih]

/-- Equal per-page block lists give equal page keys. -/
theorem pageKeys_ext {b1 b2 : List TextBlock}
    (h : ∀ p, blocksFor b1 p = blocksFor b2 p) : pageKeys b1 = pageKeys b2 := by
  apply List.eq_of_perm_of_sorted _ (pageKeys_sorted_le b1)
    (pageKeys_sorted_le b2)
  apply (List.perm_ext_iff_of_nodup (pageKeys_nodup b1)
    (pageKeys_nodup b2)).mpr
  intro p
  rw [mem_pageKeys, mem_pageKeys, h p]

/-- Chunks of one page are ordered by strictly increasing `chunk_index`. -/
theorem chunkPage_pairwise {split : String → List String} {sid did em : String}
    {blocks : List TextBlock} {images : List ImageAsset} {p : Int} :
    List.Pairwise chunkOutOrder (chunkPage split sid did em blocks images p) := by
  rw [chunkPage_eq]
  have hidx : List.Pairwise (· < ·)
      ((emitChunks sid did p (imagesFor images p) em 0
        (pagePieces split blocks p)).map (fun c => c.chunk_index)) := by
    rw [emitChunks_map_index]
    exact keptIndicesFrom_pairwise 0
  have hpw := List.pairwise_map.mp hidx
  refine hpw.imp_of_mem ?_
  intro a b ha hb hlt
  exact Or.inr ⟨(mem_emitChunks ha).2.2.1.trans (mem_emitChunks hb).2.2.1.symm,
    hlt⟩

/-- Over a strictly sorted page list, the output is ordered by page and,
within a page, by `chunk_index`. -/
theorem chunkPages_pairwise {split : String → List String}
    {sid did em : String} {blocks : List TextBlock}
    {images : List ImageAsset} :
    ∀ {ps : List Int}, List.Sorted (· < ·) ps →
      List.Pairwise chunkOutOrder
        (chunkPages split sid did em blocks images ps) := by
  intro ps
  induction ps with
  | nil => intro _; exact List.Pairwise.nil
  | cons p rest ih =>
    intro hsort
    rw [chunkPages]
    refine List.pairwise_append.mpr
      ⟨chunkPage_pairwise, ih hsort.of_cons, ?_⟩
    intro a ha b hb
    obtain ⟨q, hq, hbq⟩ := mem_chunkPages.mp hb
    refine Or.inl ?_
    rw [page_of_mem_chunkPage ha, page_of_mem_chunkPage hbq]
    exact List.rel_of_sorted_cons hsort q hq

/-- The page text of an empty block list is empty. -/
theorem pageText_nil : pageText [] = "" := rfl

/-- For a positive page, the grouped image records are exactly the records
of the images on that page. -/
theorem imagesFor_pos {images : List ImageAsset} {p : Int} (hp : 0 < p) :
    imagesFor images p =
      (images.filter (fun im => im.page == p)).map imageRecord := by
  rw [imagesFor]
  congr 1
  apply List.filter_congr
  intro im _
  by_cases h : im.page = p
  · simp [h, hp]
  · simp [h]

/-- A document whose blocks all normalize to empty yields no chunks on any
page list. -/
theorem chunkPages_of_empty {split : String → List String}
    {sid did em : String} {images : List ImageAsset} {blocks : List TextBlock}
    (h : ∀ b ∈ blocks, _normalize b.text = "") :
    ∀ ps, chunkPages split sid did em blocks images ps = [] := by
  intro ps
  induction ps with
  | nil => rfl
  | cons p rest ih =>
    have hb : ∀ b ∈ blocksFor blocks p, _normalize b.text = "" := by
      intro b hbm
      rw [blocksFor, List.mem_filter] at hbm
      exact h b hbm.1
    rw [chunkPages, ih, List.append_nil, chunkPage,
      if_pos (pageText_of_empty hb)]

/-- Sanity check of the SHA-256 implementation against the FIPS 180-4
test vector for `"abc"`. -/
theorem sha256_test_vector :
    sha256Hex (utf8Encode "abc") =
      "ba7816bf8f01cfea414140de5dae2223b00361a396177a9cb410ff61f20015ad" := by
  decide

/-! ## Claim theorems -/

/-- Claim C4: every chunk produced by `Chunker.chunk` has
`chunk_id = sha256(utf8("{session_id}|{document_id}|{page}|{chunk_index}"))`
in lower-case hex; the id is a pure function of those four values, so two
calls with identical inputs and ordering yield identical ids. -/
theorem C4_chunk_id_formula
    (recFam : Nat → Nat → String → List String)
    (semFam : String → String → List String) (dc : DocumentContent)
    (sid did strat em : String) (cs co : Nat) (out : List ChunkMetadata)
    (hout : Chunker.chunk recFam semFam dc sid did strat em cs co = .ok out) :
    ∀ c ∈ out, c.chunk_id = sha256Hex (utf8Encode
      (sid ++ "|" ++ did ++ "|" ++ toString c.page ++ "|" ++
        toString c.chunk_index)) := by
  intro c hc
  obtain ⟨split, hsp, hout2⟩ := chunk_ok_split hout
  subst hout2
  obtain ⟨p, hp, hcp⟩ := mem_chunkPages.mp hc
  rw [chunkPage_eq] at hcp
  have h := mem_emitChunks hcp
  rw [h.2.2.2.2.2.1, h.2.2.1]
  rfl

/-- Witness for C4 at a concrete input. -/
theorem C4_witness :
    sampleChunk ∈ sampleChunkRun ∧
    sampleChunk.chunk_id = sha256Hex (utf8Encode
      ("s" ++ "|" ++ "d" ++ "|" ++ toString sampleChunk.page ++ "|" ++
        toString sampleChunk.chunk_index)) :=
  ⟨by decide, C4_chunk_id_formula recIdent semIdent docOnePage "s" "d"
    "recursive" "m" 10 2 sampleChunkRun (by decide) sampleChunk (by decide)⟩

/-- Counterexample to C1: with a splitter whose first emitted piece
normalizes to empty, one retained chunk remains (k = 1), yet its
`chunk_index` is 1, so the per-page index set is {1}, not {0} — the
dropped piece did consume an index slot. -/
theorem C1_counterexample :
    (((Chunker.chunk recBlank semIdent docOnePage "s" "d" "recursive" "m"
        10 2).toOption.getD []).map (fun c => c.chunk_index) = [1]) ∧
    ((Chunker.chunk recBlank semIdent docOnePage "s" "d" "recursive" "m"
        10 2).toOption.getD []).length = 1 ∧
    [1] ≠ List.range 1 := by
  decide

/-- Claim C1 (amended): for each page, the `chunk_index` values are the
enumerate positions, over all pieces emitted by the splitter for that page
in emission order, of the pieces whose normalized text is non-empty — a
dropped empty piece consumes its slot.  The set is exactly
`{0, ..., k-1}` whenever every emitted piece of the page normalizes
non-empty (as the semantic path guarantees by pre-filtering). -/
theorem C1_chunk_index_amended
    (recFam : Nat → Nat → String → List String)
    (semFam : String → String → List String) (dc : DocumentContent)
    (sid did strat em : String) (cs co : Nat)
    (split : String → List String) (out : List ChunkMetadata)
    (hs : splitTextFor recFam semFam strat cs co em = some split)
    (hout : Chunker.chunk recFam semFam dc sid did strat em cs co = .ok out)
    (p : Int) :
    (out.filter (fun c => c.page == p)).map (fun c => c.chunk_index) =
      keptIndicesFrom 0 (pagePieces split (dc.text_blocks.getD []) p) ∧
    ((∀ s ∈ pagePieces split (dc.text_blocks.getD []) p, _normalize s ≠ "") →
      (out.filter (fun c => c.page == p)).map (fun c => c.chunk_index) =
        List.range (pagePieces split (dc.text_blocks.getD []) p).length) := by
  obtain ⟨split2, hsp2, hout2⟩ := chunk_ok_split hout
  rw [hs] at hsp2
  injection hsp2 with he
  subst he
  subst hout2
  have hmain : ((chunkPages split sid did em (dc.text_blocks.getD [])
      (dc.images.getD []) (pageKeys (dc.text_blocks.getD []))).filter
        (fun c => c.page == p)).map (fun c => c.chunk_index) =
      keptIndicesFrom 0 (pagePieces split (dc.text_blocks.getD []) p) := by
    rw [chunkPages_filter_page (pageKeys_nodup _) p]
    by_cases hp : p ∈ pageKeys (dc.text_blocks.getD [])
    · rw [if_pos hp, chunkPage_eq, emitChunks_map_index]
    · rw [if_neg hp]
      have hnil : blocksFor (dc.text_blocks.getD []) p = [] := by
        by_contra hne
        exact hp (mem_pageKeys.mpr hne)
      rw [pagePieces, hnil, pageText_nil, if_pos rfl]
      rfl
  refine ⟨hmain, fun hne => ?_⟩
  rw [hmain, keptIndicesFrom_of_nonempty hne 0, ← List.range_eq_range']

/-- Witness for the amended C1 at a concrete input. -/
theorem C1_witness :
    ((sampleChunkRun.filter (fun c => c.page == 1)).map
        (fun c => c.chunk_index) =
      keptIndicesFrom 0
        (pagePieces (recIdent 10 2) (docOnePage.text_blocks.getD []) 1)) ∧
    ((∀ s ∈ pagePieces (recIdent 10 2) (docOnePage.text_blocks.getD []) 1,
        _normalize s ≠ "") →
      (sampleChunkRun.filter (fun c => c.page == 1)).map
          (fun c => c.chunk_index) =
        List.range
          (pagePieces (recIdent 10 2)
            (docOnePage.text_blocks.getD []) 1).length) :=
  C1_chunk_index_amended recIdent semIdent docOnePage "s" "d" "recursive"
    "m" 10 2 (recIdent 10 2) sampleChunkRun rfl (by decide) 1

/-- Claim C2 (code bug): the chunker builds exactly the per-page
full-metadata `image_refs` the claim describes — at this concrete input
the page-1 chunk carries the one five-key record of the page-1 image —
but that non-empty dict-valued list fails the pydantic validation of
`schemas.ChunkMetadata.image_refs : List[str]` (schemas.py line 84), so
the real `ChunkMetadata(...)` call at chunker.py lines 169-180 raises
`ValidationError` whenever a chunked page has images, contradicting the
claim, the chunker comment ("LIST OF METADATA DICTS") and the repository
test `test_pdf_images_then_chunk.py`. -/
theorem C2_validation_failure :
    sampleChunk2 ∈ sampleChunkRun2 ∧
    sampleChunk2.image_refs = [⟨"img1", "sess", "doc", 1, "/i/1.png"⟩] ∧
    imageRefsPassValidation sampleChunk2.image_refs = false := by
  decide

/-- Counterexample to C3: the source default is `strategy = "semantic"`, and a
default call follows the semantic splitting path, not the recursive one —
at a concrete input where the two collaborators differ, the default call
and the `strategy="recursive"` call disagree. -/
theorem C3_counterexample :
    defaultStrategy = "semantic" ∧
    Chunker.chunkDefault recTag semTag docOnePage "s" "d" ≠
      Chunker.chunk recTag semTag docOnePage "s" "d" "recursive"
        defaultEmbeddingModel defaultChunkSize defaultChunkOverlap := by
  refine ⟨rfl, ?_⟩
  decide

/-- Claim C3 (amended): a call of `Chunker.chunk` without an explicit strategy
uses the default `strategy = "semantic"`: it behaves exactly like an
explicit `strategy="semantic"` call, and it never consults the recursive
splitter family (the collaborator it requires is the semantic/embedding
one). -/
theorem C3_default_strategy_amended
    (recFam1 recFam2 : Nat → Nat → String → List String)
    (semFam : String → String → List String) (dc : DocumentContent)
    (sid did : String) :
    Chunker.chunkDefault recFam1 semFam dc sid did =
      Chunker.chunk recFam1 semFam dc sid did "semantic"
        defaultEmbeddingModel defaultChunkSize defaultChunkOverlap ∧
    Chunker.chunkDefault recFam1 semFam dc sid did =
      Chunker.chunkDefault recFam2 semFam dc sid did :=
  ⟨rfl, rfl⟩

/-- Counterexample to C5: with the (valid) semantic strategy and
`chunk_overlap = 200 ≥ chunk_size = 100`, `Chunker.chunk` does not fail:
it returns a non-empty chunk list — the size/overlap parameters are not
validated. -/
theorem C5_counterexample :
    (Chunker.chunk recTag semTag docOnePage "s" "d" "semantic" "m"
        100 200).toOption ≠ none ∧
    ((Chunker.chunk recTag semTag docOnePage "s" "d" "semantic" "m"
        100 200).toOption.getD []).map (fun c => c.text) = ["sem"] ∧
    (100 : Nat) ≤ 200 := by
  refine ⟨?_, ?_, by decide⟩ <;> decide

/-- Claim C5 (amended): `Chunker.chunk` fails fast with `InvalidConfiguration`
(producing no output) exactly when the strategy is neither `"recursive"`
nor `"semantic"`; the size/overlap parameters are not validated by the
chunker itself (the semantic path ignores them, the recursive path passes
them to the external splitter library). -/
theorem C5_invalid_strategy_amended
    (recFam : Nat → Nat → String → List String)
    (semFam : String → String → List String) (dc : DocumentContent)
    (sid did strat em : String) (cs co : Nat) :
    Chunker.chunk recFam semFam dc sid did strat em cs co =
      .error (.invalidConfiguration
        "strategy must be semantic or recursive") ↔
    (strat ≠ "recursive" ∧ strat ≠ "semantic") := by
  rw [Chunker.chunk, splitTextFor]
  by_cases h1 : strat = "recursive"
  · simp [h1]
  · by_cases h2 : strat = "semantic"
    · simp [h1, h2]
    · simp [h1, h2]

/-- Claim C6: every produced chunk has a positive page, and its text is the
normalization of one of the pieces the splitter produced from the page
text assembled exclusively from this page's text blocks (blocks with
page ≤ 0 being discarded by `blocksFor`) — a chunk never contains text
of another page. -/
theorem C6_page_containment
    (recFam : Nat → Nat → String → List String)
    (semFam : String → String → List String) (dc : DocumentContent)
    (sid did strat em : String) (cs co : Nat)
    (split : String → List String) (out : List ChunkMetadata)
    (hs : splitTextFor recFam semFam strat cs co em = some split)
    (hout : Chunker.chunk recFam semFam dc sid did strat em cs co = .ok out) :
    ∀ c ∈ out, 0 < c.page ∧ c.text ∈
      (split (pageText (blocksFor (dc.text_blocks.getD []) c.page))).map
        _normalize := by
  intro c hc
  obtain ⟨split2, hsp2, hout2⟩ := chunk_ok_split hout
  rw [hs] at hsp2
  injection hsp2 with he
  subst he
  subst hout2
  obtain ⟨p, hp, hcp⟩ := mem_chunkPages.mp hc
  have hpos := pageKeys_pos hp
  rw [chunkPage_eq] at hcp
  have h := mem_emitChunks hcp
  obtain ⟨piece, hpiece, htext⟩ := h.2.2.2.2.2.2.2
  refine ⟨by rw [h.2.2.1]; exact hpos, ?_⟩
  rw [h.2.2.1]
  rw [pagePieces] at hpiece
  by_cases hpt : pageText (blocksFor (dc.text_blocks.getD []) p) = ""
  · rw [if_pos hpt] at hpiece
    exact absurd hpiece (List.not_mem_nil piece)
  · rw [if_neg hpt] at hpiece
    exact List.mem_map.mpr ⟨piece, hpiece, htext.symm⟩

/-- Witness for C6 at a concrete input. -/
theorem C6_witness :
    0 < sampleChunk.page ∧ sampleChunk.text ∈
      (recIdent 10 2 (pageText (blocksFor (docOnePage.text_blocks.getD [])
        sampleChunk.page))).map _normalize :=
  C6_page_containment recIdent semIdent docOnePage "s" "d" "recursive" "m"
    10 2 (recIdent 10 2) sampleChunkRun rfl (by decide) sampleChunk
    (by decide)

/-- Claim C7: the output is ordered by strictly ascending page and, within one
page, by strictly ascending `chunk_index`; and two calls whose inputs have
the same per-page block lists (the blocks of different pages may be
interleaved arbitrarily in the input) and the same images produce the same
output. -/
theorem C7_output_order
    (recFam : Nat → Nat → String → List String)
    (semFam : String → String → List String) (dc1 dc2 : DocumentContent)
    (sid did strat em : String) (cs co : Nat)
    (out1 out2 : List ChunkMetadata)
    (h1 : Chunker.chunk recFam semFam dc1 sid did strat em cs co = .ok out1)
    (h2 : Chunker.chunk recFam semFam dc2 sid did strat em cs co = .ok out2)
    (himg : dc1.images.getD [] = dc2.images.getD [])
    (hblk : ∀ p : Int, blocksFor (dc1.text_blocks.getD []) p =
      blocksFor (dc2.text_blocks.getD []) p) :
    List.Pairwise chunkOutOrder out1 ∧ out1 = out2 := by
  obtain ⟨split, hsp, ho1⟩ := chunk_ok_split h1
  obtain ⟨split2, hsp2, ho2⟩ := chunk_ok_split h2
  rw [hsp] at hsp2
  injection hsp2 with he
  subst he
  subst ho1
  subst ho2
  refine ⟨chunkPages_pairwise (pageKeys_sorted _), ?_⟩
  rw [pageKeys_ext hblk, himg, chunkPages_congr hblk]

/-- Witness for C7 at a concrete two-page input. -/
theorem C7_witness :
    List.Pairwise chunkOutOrder sampleChunkRun2 ∧
      sampleChunkRun2 = sampleChunkRun2 :=
  C7_output_order recIdent semIdent docTwoPages docTwoPages "sess" "doc"
    "recursive" "m" 10 2 sampleChunkRun2 sampleChunkRun2 (by decide)
    (by decide) rfl (fun p => rfl)

/-- Claim C8: under `strategy = "recursive"` with a fixed recursive splitter
family and fixed inputs, two invocations — even with different semantic
collaborators and different stored embedding-model names — produce
element-wise equal `chunk_id` sequences and equal `text` sequences. -/
theorem C8_recursive_determinism
    (recFam : Nat → Nat → String → List String)
    (semFam1 semFam2 : String → String → List String) (dc : DocumentContent)
    (sid did em1 em2 : String) (cs co : Nat) (out1 out2 : List ChunkMetadata)
    (h1 : Chunker.chunk recFam semFam1 dc sid did "recursive" em1 cs co =
      .ok out1)
    (h2 : Chunker.chunk recFam semFam2 dc sid did "recursive" em2 cs co =
      .ok out2) :
    out1.map (fun c => c.chunk_id) = out2.map (fun c => c.chunk_id) ∧
    out1.map (fun c => c.text) = out2.map (fun c => c.text) := by
  obtain ⟨s1, hs1, ho1⟩ := chunk_ok_split h1
  obtain ⟨s2, hs2, ho2⟩ := chunk_ok_split h2
  have he1 : splitTextFor recFam semFam1 "recursive" cs co em1 =
      some (recFam cs co) := rfl
  have he2 : splitTextFor recFam semFam2 "recursive" cs co em2 =
      some (recFam cs co) := rfl
  rw [he1] at hs1
  rw [he2] at hs2
  injection hs1 with hs1e
  injection hs2 with hs2e
  subst hs1e
  subst hs2e
  subst ho1
  subst ho2
  have hproj : (chunkPages (recFam cs co) sid did em1
      (dc.text_blocks.getD []) (dc.images.getD [])
      (pageKeys (dc.text_blocks.getD []))).map
        (fun c => (c.chunk_id, c.text)) =
      (chunkPages (recFam cs co) sid did em2
        (dc.text_blocks.getD []) (dc.images.getD [])
        (pageKeys (dc.text_blocks.getD []))).map
        (fun c => (c.chunk_id, c.text)) :=
    chunkPages_proj (pageKeys (dc.text_blocks.getD []))
  constructor
  · have := congrArg (List.map Prod.fst) hproj
    simpa [List.map_map, Function.comp] using this
  · have := congrArg (List.map Prod.snd) hproj
    simpa [List.map_map, Function.comp] using this

/-- Witness for C8 at a concrete input, with two different semantic
collaborators and model names. -/
theorem C8_witness :
    sampleChunkRun.map (fun c => c.chunk_id) =
      ((Chunker.chunk recIdent semTag docOnePage "s" "d" "recursive" "x"
        10 2).toOption.getD []).map (fun c => c.chunk_id) ∧
    sampleChunkRun.map (fun c => c.text) =
      ((Chunker.chunk recIdent semTag docOnePage "s" "d" "recursive" "x"
        10 2).toOption.getD []).map (fun c => c.text) :=
  C8_recursive_determinism recIdent semIdent semTag docOnePage "s" "d"
    "m" "x" 10 2 sampleChunkRun
    ((Chunker.chunk recIdent semTag docOnePage "s" "d" "recursive" "x"
      10 2).toOption.getD []) (by decide) (by decide)

/-- Claim C9: a document with no usable text after normalization (in particular
an empty or absent `text_blocks`) makes `Chunker.chunk` succeed with the
empty chunk list under any valid strategy — every page's assembled text is
empty, so every page is skipped without an error. -/
theorem C9_empty_input
    (recFam : Nat → Nat → String → List String)
    (semFam : String → String → List String) (dc : DocumentContent)
    (sid did strat em : String) (cs co : Nat)
    (hstrat : strat = "recursive" ∨ strat = "semantic")
    (hempty : ∀ b ∈ dc.text_blocks.getD [], _normalize b.text = "") :
    Chunker.chunk recFam semFam dc sid did strat em cs co = .ok [] := by
  have hsp : ∃ split, splitTextFor recFam semFam strat cs co em =
      some split := by
    rcases hstrat with h | h
    · exact ⟨recFam cs co, by rw [h]; rfl⟩
    · exact ⟨fun t => ((semFam em t).map _normalize).filter (fun s => s ≠ ""),
        by rw [h]; rfl⟩
  obtain ⟨split, hsp⟩ := hsp
  rw [chunk_eq_of_split hsp, chunkPages_of_empty hempty]

/-- Witness for C9 at a concrete whitespace-only document. -/
theorem C9_witness :
    Chunker.chunk recIdent semIdent docBlank "s" "d" "recursive" "m" 10 2 =
      .ok [] :=
  C9_empty_input recIdent semIdent docBlank "s" "d" "recursive" "m" 10 2
    (Or.inl rfl) (by decide)

/-- Claim C10: `Chunker.chunk` treats an absent/None `text_blocks` or `images`
exactly like an empty list (the defensive `getattr(..., None) or []`), and
with absent images every produced chunk has empty `image_refs`. -/
theorem C10_defensive_access
    (recFam : Nat → Nat → String → List String)
    (semFam : String → String → List String) (sid did strat em : String)
    (cs co : Nat) (tbs : Option (List TextBlock))
    (ims : Option (List ImageAsset)) :
    Chunker.chunk recFam semFam ⟨tbs, none⟩ sid did strat em cs co =
      Chunker.chunk recFam semFam ⟨tbs, some []⟩ sid did strat em cs co ∧
    Chunker.chunk recFam semFam ⟨none, ims⟩ sid did strat em cs co =
      Chunker.chunk recFam semFam ⟨some [], ims⟩ sid did strat em cs co ∧
    (∀ out, Chunker.chunk recFam semFam ⟨tbs, none⟩ sid did strat em cs co =
        .ok out → ∀ c ∈ out, c.image_refs = []) := by
  refine ⟨rfl, rfl, ?_⟩
  intro out hout c hc
  obtain ⟨split, hsp, ho⟩ := chunk_ok_split hout
  subst ho
  obtain ⟨p, hp, hcp⟩ := mem_chunkPages.mp hc
  rw [chunkPage_eq] at hcp
  have h := mem_emitChunks hcp
  rw [h.2.2.2.1]
  rfl

/-- Witness for C10 at a concrete document with absent images. -/
theorem C10_witness : sampleChunk3.image_refs = [] :=
  (C10_defensive_access recIdent semIdent "s" "d" "recursive" "m" 10 2
    (some [⟨"Hello world", 1, none⟩]) none).2.2 sampleChunkRun3 (by decide)
    sampleChunk3 (by decide)
